import Mathlib

/-!
# SSTV PD120 encoder — shallow embedding and verification

This file embeds the PD120 SSTV encoding and timing core of `sstv_pd120.h`
and proves properties of the embedded definitions.

Modelling conventions:
* C `float`/`double` arithmetic is modelled by exact rationals (`ℚ`).  Every
  truncation boundary relevant to a theorem below is separated from the exact
  value by far more than the rounding error of IEEE single/double arithmetic
  on these small expressions, so the rational model and the machine model
  agree on every stated integer result.
* The C cast `(uint32_t)x` of a nonnegative floating value truncates toward
  zero, i.e. it is `⌊x⌋`; we model it as `(⌊x⌋).toNat`.  All values actually
  cast in the program are nonnegative (proved below).
* The canvas buffer (a `uint16_t` array indexed by `y * imageWidth + x`) is
  modelled as a function `ℕ → ℕ` whose values are reduced `% 65536`.
* The timer-driven scan loop (`esp_timer_start_periodic` /
  `pixelTimerCallback` / the blocking `while (!rowFinished)` wait) is modelled
  as an explicit state machine: one callback invocation is one `step`, and the
  blocking wait is a fuelled loop that stops as soon as `rowFinished` is set.
  Stopping the hardware timer and setting `rowFinished` happen in the same
  callback invocation in the source, so a single flag models both.
* Tone output (`ledcWriteTone` plus a busy-wait or timer period) is modelled
  as a trace of `(frequency, duration)` pairs; each timer tick holds its tone
  for one `pixelDuration`.
-/

set_option maxRecDepth 8000
set_option maxHeartbeats 1000000

namespace SSTV

/-- `const uint32_t syncPulseDuration = 20000;` -/
def syncPulseDuration : ℕ := 20000

/-- `const uint32_t porchDuration = 2080;` -/
def porchDuration : ℕ := 2080

/-- `const uint32_t scanDuration = 121600;` -/
def scanDuration : ℕ := 121600

/-- `const int imageWidth = 640;` -/
def imageWidth : ℕ := 640

/-- `const int imageHeight = 496;` -/
def imageHeight : ℕ := 496

/-- `const uint32_t pixelDuration = scanDuration / imageWidth;` (≈ 190 µs) -/
def pixelDuration : ℕ := scanDuration / imageWidth

/-- An 8-bit RGB sample as produced by `getCanvasPixel`. -/
structure RGB8 where
  R : ℕ
  G : ℕ
  B : ℕ
deriving DecidableEq, Repr

/-- `getCanvasPixel`: reads the packed RGB565 pixel at `(x, y)` from the
canvas buffer and rescales the 5/6/5-bit channels to 8-bit range.

```
uint16_t pixel = canvas->getBuffer()[y * imageWidth + x];
uint8_t r5 = (pixel >> 11) & 0x1F;
uint8_t g6 = (pixel >> 5)  & 0x3F;
uint8_t b5 = pixel & 0x1F;
R = (r5 * 255) / 31;  G = (g6 * 255) / 63;  B = (b5 * 255) / 31;
``` -/
def getCanvasPixel (buf : ℕ → ℕ) (x y : ℕ) : RGB8 :=
  let pixel : ℕ := buf (y * imageWidth + x) % 65536
  let r5 := (pixel >>> 11) &&& 0x1F
  let g6 := (pixel >>> 5) &&& 0x3F
  let b5 := pixel &&& 0x1F
  { R := r5 * 255 / 31, G := g6 * 255 / 63, B := b5 * 255 / 31 }

/-- The SSTV channel triple (Y, R−Y, B−Y) produced by `convertToSSTV`. -/
structure SSTVChannels where
  Y : ℚ
  RY : ℚ
  BY : ℚ
deriving DecidableEq, Repr

/-- `convertToSSTV`:
```
Y  = 0.299 * R + 0.587 * G + 0.114 * B;
RY = 0.713 * (R - Y);
BY = 0.564 * (B - Y);
``` -/
def convertToSSTV (R G B : ℕ) : SSTVChannels :=
  let Y : ℚ := 0.299 * R + 0.587 * G + 0.114 * B
  { Y := Y, RY := 0.713 * ((R : ℚ) - Y), BY := 0.564 * ((B : ℚ) - Y) }

/-- `mapYToFrequency`: `return 1500 + (uint32_t)((Y / 255.0) * 800);`
The C cast truncates toward zero; on the nonnegative inputs that reach it
this is the floor. -/
def mapYToFrequency (Y : ℚ) : ℕ :=
  1500 + (⌊Y / 255 * 800⌋).toNat

/-- `mapDiffToFrequency`: `return 1500 + (uint32_t)(((diff + 128.0) / 255.0) * 800);` -/
def mapDiffToFrequency (diff : ℚ) : ℕ :=
  1500 + (⌊(diff + 128) / 255 * 800⌋).toNat

/-- `enum SegmentType { SEG_Y, SEG_RY, SEG_BY };` -/
inductive SegmentType
  | SEG_Y
  | SEG_RY
  | SEG_BY
deriving DecidableEq, Repr

/-- The mutable globals driving one scan segment: `pixelCounter`,
`rowFinished`, `currentSegment`, `currentRow`, `currentRowOdd`,
`currentRowEven`.  (`esp_timer_stop` and `rowFinished = true` coincide in the
source, so the single flag models both.) -/
structure ScanState where
  pixelCounter : ℕ
  rowFinished : Bool
  currentSegment : SegmentType
  currentRow : ℕ
  currentRowOdd : ℕ
  currentRowEven : ℕ
deriving DecidableEq, Repr

/-- The frequency computed by one invocation of `pixelTimerCallback`:
dispatch on `currentSegment`, fetch the pixel(s) at column `pixelCounter`,
convert, and map to a frequency (averaging the two rows for R−Y / B−Y). -/
def tickFreq (buf : ℕ → ℕ) (s : ScanState) : ℕ :=
  match s.currentSegment with
  | .SEG_Y =>
      let p := getCanvasPixel buf s.pixelCounter s.currentRow
      mapYToFrequency (convertToSSTV p.R p.G p.B).Y
  | .SEG_RY =>
      let p1 := getCanvasPixel buf s.pixelCounter s.currentRowOdd
      let p2 := getCanvasPixel buf s.pixelCounter s.currentRowEven
      let c1 := convertToSSTV p1.R p1.G p1.B
      let c2 := convertToSSTV p2.R p2.G p2.B
      mapDiffToFrequency ((c1.RY + c2.RY) / 2)
  | .SEG_BY =>
      let p1 := getCanvasPixel buf s.pixelCounter s.currentRowOdd
      let p2 := getCanvasPixel buf s.pixelCounter s.currentRowEven
      let c1 := convertToSSTV p1.R p1.G p1.B
      let c2 := convertToSSTV p2.R p2.G p2.B
      mapDiffToFrequency ((c1.BY + c2.BY) / 2)

/-- The `(x, y)` coordinates passed to `getCanvasPixel` by one invocation of
`pixelTimerCallback` (one access for SEG_Y, two for the difference segments). -/
def tickAccesses (s : ScanState) : List (ℕ × ℕ) :=
  match s.currentSegment with
  | .SEG_Y => [(s.pixelCounter, s.currentRow)]
  | .SEG_RY => [(s.pixelCounter, s.currentRowOdd), (s.pixelCounter, s.currentRowEven)]
  | .SEG_BY => [(s.pixelCounter, s.currentRowOdd), (s.pixelCounter, s.currentRowEven)]

/-- `pixelTimerCallback`: computes the tone for the current pixel, writes it
(`ledcWriteTone(freq)` — returned as the second component), increments
`pixelCounter`, and on `pixelCounter >= imageWidth` stops the timer and sets
`rowFinished`. -/
def pixelTimerCallback (buf : ℕ → ℕ) (s : ScanState) : ScanState × ℕ :=
  let freq := tickFreq buf s
  let s1 := { s with pixelCounter := s.pixelCounter + 1 }
  if imageWidth ≤ s1.pixelCounter then
    ({ s1 with rowFinished := true }, freq)
  else
    (s1, freq)

/-- Result of running one scan segment: final global state, the tone written
by each callback invocation (in order), and every canvas access performed. -/
structure RunOut where
  state : ScanState
  tones : List ℕ
  accesses : List (ℕ × ℕ)
deriving Repr

/-- The periodic timer together with the blocking wait `while (!rowFinished)`:
while `rowFinished` is clear, the callback fires once per period.  `fuel`
bounds the number of ticks so the model is total; the theorems below show any
`fuel ≥ imageWidth` runs the segment to completion. -/
def runSegmentLoop (buf : ℕ → ℕ) : ℕ → ScanState → RunOut
  | 0, s => { state := s, tones := [], accesses := [] }
  | fuel + 1, s =>
      if s.rowFinished then { state := s, tones := [], accesses := [] }
      else
        let acc := tickAccesses s
        let out := pixelTimerCallback buf s
        let rest := runSegmentLoop buf fuel out.1
        { state := rest.state, tones := out.2 :: rest.tones, accesses := acc ++ rest.accesses }

/-- `transmitLineY_HW(row)`: set `currentSegment = SEG_Y`, `currentRow = row`,
reset `pixelCounter`/`rowFinished`, start the periodic timer and block until
the row is finished. -/
def transmitLineY_HW (buf : ℕ → ℕ) (fuel : ℕ) (row : ℕ) (s : ScanState) : RunOut :=
  runSegmentLoop buf fuel
    { s with currentSegment := .SEG_Y, currentRow := row, pixelCounter := 0, rowFinished := false }

/-- `transmitLineDiffRY_HW(oddRow, evenRow)`. -/
def transmitLineDiffRY_HW (buf : ℕ → ℕ) (fuel : ℕ) (oddRow evenRow : ℕ) (s : ScanState) : RunOut :=
  runSegmentLoop buf fuel
    { s with currentSegment := .SEG_RY, currentRowOdd := oddRow, currentRowEven := evenRow,
             pixelCounter := 0, rowFinished := false }

/-- `transmitLineDiffBY_HW(oddRow, evenRow)`. -/
def transmitLineDiffBY_HW (buf : ℕ → ℕ) (fuel : ℕ) (oddRow evenRow : ℕ) (s : ScanState) : RunOut :=
  runSegmentLoop buf fuel
    { s with currentSegment := .SEG_BY, currentRowOdd := oddRow, currentRowEven := evenRow,
             pixelCounter := 0, rowFinished := false }

/-- Pixel tones as trace entries: each timer tick holds its tone for one
`pixelDuration`. -/
def pixelTrace (tones : List ℕ) : List (ℕ × ℕ) :=
  tones.map (fun f => (f, pixelDuration))

/-- Result of a (partial) image transmission: final state, the full
`(frequency, duration)` tone trace and all canvas accesses. -/
structure TxOut where
  state : ScanState
  trace : List (ℕ × ℕ)
  accesses : List (ℕ × ℕ)
deriving Repr

/-- One iteration of the loop body of `transmitPD120Image_HW` for line pair
`pair` (`oddLine = pair * 2`, `evenLine = oddLine + 1`): sync pulse
(1200 Hz, 20 ms), porch (1500 Hz, 2.08 ms), then Y(odd), R−Y, B−Y, Y(even),
each blocking to completion. -/
def transmitPair (buf : ℕ → ℕ) (fuel : ℕ) (s : ScanState) (pair : ℕ) : TxOut :=
  let oddLine := pair * 2
  let evenLine := oddLine + 1
  let yOdd := transmitLineY_HW buf fuel oddLine s
  let ry := transmitLineDiffRY_HW buf fuel oddLine evenLine yOdd.state
  let bySeg := transmitLineDiffBY_HW buf fuel oddLine evenLine ry.state
  let yEven := transmitLineY_HW buf fuel evenLine bySeg.state
  { state := yEven.state,
    trace := (1200, syncPulseDuration) :: (1500, porchDuration) ::
      (pixelTrace yOdd.tones ++ pixelTrace ry.tones ++ pixelTrace bySeg.tones ++
        pixelTrace yEven.tones),
    accesses := yOdd.accesses ++ ry.accesses ++ bySeg.accesses ++ yEven.accesses }

/-- `int numPairs = imageHeight / 2;` -/
def numPairs : ℕ := imageHeight / 2

/-- The body of the `for (int pair = 0; pair < numPairs; pair++)` loop:
run one line pair from the accumulated state and append its output. -/
def imageStep (buf : ℕ → ℕ) (fuel : ℕ) (acc : TxOut) (pair : ℕ) : TxOut :=
  let out := transmitPair buf fuel acc.state pair
  { state := out.state, trace := acc.trace ++ out.trace,
    accesses := acc.accesses ++ out.accesses }

/-- `transmitPD120Image_HW`: `for (int pair = 0; pair < numPairs; pair++)`
runs `transmitPair` for each pair in increasing order, threading the mutable
globals and accumulating the emitted trace. -/
def transmitPD120Image_HW (buf : ℕ → ℕ) (fuel : ℕ) (s : ScanState) : TxOut :=
  (List.range numPairs).foldl (imageStep buf fuel)
    { state := s, trace := [], accesses := [] }

/-- `tonePulse(frequency, durationMicros)`: writes the tone and busy-waits for
the duration; in the trace model it appends one `(frequency, duration)` pulse. -/
def tonePulse (t : List (ℕ × ℕ)) (frequency durationMicros : ℕ) : List (ℕ × ℕ) :=
  t ++ [(frequency, durationMicros)]

/-- `transmitCalibrationHeader`: the 13 sequential `tonePulse` calls of the
source (leader, break, leader, sync, seven VIS bits of code 95, even parity,
stop). -/
def transmitCalibrationHeader : List (ℕ × ℕ) :=
  let t : List (ℕ × ℕ) := []
  let t := tonePulse t 1900 300000
  let t := tonePulse t 1200 10000
  let t := tonePulse t 1900 300000
  let t := tonePulse t 1200 30000
  let t := tonePulse t 1100 30000   -- Bit 0: 1
  let t := tonePulse t 1100 30000   -- Bit 1: 1
  let t := tonePulse t 1100 30000   -- Bit 2: 1
  let t := tonePulse t 1100 30000   -- Bit 3: 1
  let t := tonePulse t 1100 30000   -- Bit 4: 1
  let t := tonePulse t 1300 30000   -- Bit 5: 0
  let t := tonePulse t 1100 30000   -- Bit 6: 1
  let t := tonePulse t 1300 30000   -- Parity (even)
  let t := tonePulse t 1200 30000
  t

/-- The header pulse sequence exactly as the claim words it: identical to the
code's sequence except that the parity pulse is stated as lasting 1300 µs.
(Stated from the spec's words, for comparison with
`transmitCalibrationHeader`.) -/
def claimHeaderPulses : List (ℕ × ℕ) :=
  [(1900, 300000), (1200, 10000), (1900, 300000), (1200, 30000),
   (1100, 30000), (1100, 30000), (1100, 30000), (1100, 30000), (1100, 30000),
   (1300, 30000), (1100, 30000),
   (1300, 1300), (1200, 30000)]

/-- The tone sequence a luminance segment on `row` produces, written directly
as a map over the 640 columns (the loop-based `transmitLineY_HW` is proved
equal to this). -/
def segTonesY (buf : ℕ → ℕ) (row : ℕ) : List ℕ :=
  (List.range imageWidth).map fun x =>
    let p := getCanvasPixel buf x row
    mapYToFrequency (convertToSSTV p.R p.G p.B).Y

/-- The tone sequence of an R−Y segment over the row pair, as a direct map. -/
def segTonesRY (buf : ℕ → ℕ) (oddRow evenRow : ℕ) : List ℕ :=
  (List.range imageWidth).map fun x =>
    let p1 := getCanvasPixel buf x oddRow
    let p2 := getCanvasPixel buf x evenRow
    let c1 := convertToSSTV p1.R p1.G p1.B
    let c2 := convertToSSTV p2.R p2.G p2.B
    mapDiffToFrequency ((c1.RY + c2.RY) / 2)

/-- The tone sequence of a B−Y segment over the row pair, as a direct map. -/
def segTonesBY (buf : ℕ → ℕ) (oddRow evenRow : ℕ) : List ℕ :=
  (List.range imageWidth).map fun x =>
    let p1 := getCanvasPixel buf x oddRow
    let p2 := getCanvasPixel buf x evenRow
    let c1 := convertToSSTV p1.R p1.G p1.B
    let c2 := convertToSSTV p2.R p2.G p2.B
    mapDiffToFrequency ((c1.BY + c2.BY) / 2)

/-- An all-zero canvas buffer (black image). -/
def buf0 : ℕ → ℕ := fun _ => 0

/-- A canvas whose every packed pixel is `0xF800` (pure red: R=255, G=B=0). -/
def bufRed : ℕ → ℕ := fun _ => 0xF800

/-- A canvas whose every packed pixel is `0xFFFF` (white: all channel bits set). -/
def bufWhite : ℕ → ℕ := fun _ => 0xFFFF

/-- The initial global state at boot (all counters zero, SEG_Y). -/
def initState : ScanState :=
  { pixelCounter := 0, rowFinished := false, currentSegment := .SEG_Y,
    currentRow := 0, currentRowOdd := 0, currentRowEven := 0 }

/-! ## Run-loop lemmas -/

lemma range_map_shift {α : Type} (f : ℕ → α) (c n : ℕ) :
    (List.range (n + 1)).map (fun i => f (c + i)) =
      f c :: (List.range n).map (fun i => f (c + 1 + i)) := by
  rw [List.range_succ_eq_map, List.map_cons, List.map_map, Nat.add_zero]
  congr 1
  congr 1
  funext i
  simp only [Function.comp_apply]
  congr 1
  omega

lemma range_flatMap_shift {α : Type} (f : ℕ → List α) (c n : ℕ) :
    (List.range (n + 1)).flatMap (fun i => f (c + i)) =
      f c ++ (List.range n).flatMap (fun i => f (c + 1 + i)) := by
  rw [List.range_succ_eq_map, List.flatMap_cons, Nat.add_zero, List.flatMap_map]
  congr 1
  congr 1
  funext i
  congr 1
  omega

lemma range_one_eq : List.range 1 = [0] := rfl

/-- Once `rowFinished` is set, the wait loop performs no further ticks. -/
lemma runSegmentLoop_finished (buf : ℕ → ℕ) (fuel : ℕ) (s : ScanState)
    (h : s.rowFinished = true) :
    runSegmentLoop buf fuel s = { state := s, tones := [], accesses := [] } := by
  cases fuel <;> simp [runSegmentLoop, h]

/-- A segment started below `imageWidth` with enough fuel runs to completion:
it ticks once per remaining column, ends with `pixelCounter = imageWidth` and
`rowFinished` set, and emits one tone (and the corresponding accesses) per
column. -/
lemma runSegmentLoop_complete (buf : ℕ → ℕ) (seg : SegmentType) (r ro re : ℕ) :
    ∀ (fuel c : ℕ), c < imageWidth → imageWidth - c ≤ fuel →
      runSegmentLoop buf fuel ⟨c, false, seg, r, ro, re⟩ =
        { state := ⟨imageWidth, true, seg, r, ro, re⟩,
          tones := (List.range (imageWidth - c)).map
            (fun i => tickFreq buf ⟨c + i, false, seg, r, ro, re⟩),
          accesses := (List.range (imageWidth - c)).flatMap
            (fun i => tickAccesses ⟨c + i, false, seg, r, ro, re⟩) } := by
  intro fuel
  induction fuel with
  | zero => intro c h2 h3; omega
  | succ fuel ih =>
    intro c h2 h3
    by_cases hc : imageWidth ≤ c + 1
    · have hceq : c + 1 = imageWidth := by omega
      have hn : imageWidth - c = 1 := by omega
      simp only [runSegmentLoop, Bool.false_eq_true, if_false, pixelTimerCallback]
      simp only [if_pos hc]
      rw [runSegmentLoop_finished buf fuel _ rfl]
      rw [hn, hceq, range_one_eq]
      simp only [List.map_cons, List.map_nil, List.flatMap_cons, List.flatMap_nil,
        Nat.add_zero, List.append_nil]
    · have hlt : c + 1 < imageWidth := by omega
      simp only [runSegmentLoop, Bool.false_eq_true, if_false, pixelTimerCallback]
      simp only [if_neg hc]
      rw [ih (c + 1) hlt (by omega)]
      rw [show imageWidth - c = (imageWidth - (c + 1)) + 1 from by omega]
      rw [range_map_shift (fun x => tickFreq buf ⟨x, false, seg, r, ro, re⟩) c
        (imageWidth - (c + 1))]
      rw [range_flatMap_shift (fun x => tickAccesses ⟨x, false, seg, r, ro, re⟩) c
        (imageWidth - (c + 1))]

/-- With fuel short of the remaining columns, the loop ticks exactly `fuel`
times and the segment is still unfinished. -/
lemma runSegmentLoop_partial (buf : ℕ → ℕ) (seg : SegmentType) (r ro re : ℕ) :
    ∀ (fuel c : ℕ), c + fuel < imageWidth →
      runSegmentLoop buf fuel ⟨c, false, seg, r, ro, re⟩ =
        { state := ⟨c + fuel, false, seg, r, ro, re⟩,
          tones := (List.range fuel).map
            (fun i => tickFreq buf ⟨c + i, false, seg, r, ro, re⟩),
          accesses := (List.range fuel).flatMap
            (fun i => tickAccesses ⟨c + i, false, seg, r, ro, re⟩) } := by
  intro fuel
  induction fuel with
  | zero =>
    intro c _
    simp [runSegmentLoop]
  | succ fuel ih =>
    intro c h2
    have hc : ¬ imageWidth ≤ c + 1 := by omega
    simp only [runSegmentLoop, Bool.false_eq_true, if_false, pixelTimerCallback]
    simp only [if_neg hc]
    rw [ih (c + 1) (by omega)]
    rw [range_map_shift (fun x => tickFreq buf ⟨x, false, seg, r, ro, re⟩) c fuel]
    rw [range_flatMap_shift (fun x => tickAccesses ⟨x, false, seg, r, ro, re⟩) c fuel]
    rw [show c + 1 + fuel = c + (fuel + 1) from by omega]

/-! ## Segment-level and image-level decompositions -/

lemma imageWidth_pos : 0 < imageWidth := by norm_num [imageWidth]

section

attribute [local irreducible] imageWidth

/-- A fully fuelled `transmitLineY_HW` runs the whole luminance row:
`segTonesY` tones, one access per column, final state finished. -/
lemma transmitLineY_eq (buf : ℕ → ℕ) (fuel row : ℕ) (s : ScanState)
    (hf : imageWidth ≤ fuel) :
    transmitLineY_HW buf fuel row s =
      { state := ⟨imageWidth, true, .SEG_Y, row, s.currentRowOdd, s.currentRowEven⟩,
        tones := segTonesY buf row,
        accesses := (List.range imageWidth).flatMap (fun x => [(x, row)]) } := by
  unfold transmitLineY_HW
  rw [runSegmentLoop_complete buf .SEG_Y row s.currentRowOdd s.currentRowEven fuel 0
    imageWidth_pos (by omega)]
  congr 1
  · unfold segTonesY
    rw [Nat.sub_zero]
    congr 1
    funext i
    simp only [Nat.zero_add]
    rfl
  · rw [Nat.sub_zero]
    congr 1
    funext i
    simp only [Nat.zero_add]
    rfl

/-- A fully fuelled `transmitLineDiffRY_HW` runs the whole R−Y segment. -/
lemma transmitLineDiffRY_eq (buf : ℕ → ℕ) (fuel oddRow evenRow : ℕ) (s : ScanState)
    (hf : imageWidth ≤ fuel) :
    transmitLineDiffRY_HW buf fuel oddRow evenRow s =
      { state := ⟨imageWidth, true, .SEG_RY, s.currentRow, oddRow, evenRow⟩,
        tones := segTonesRY buf oddRow evenRow,
        accesses := (List.range imageWidth).flatMap
          (fun x => [(x, oddRow), (x, evenRow)]) } := by
  unfold transmitLineDiffRY_HW
  rw [runSegmentLoop_complete buf .SEG_RY s.currentRow oddRow evenRow fuel 0
    imageWidth_pos (by omega)]
  congr 1
  · unfold segTonesRY
    rw [Nat.sub_zero]
    congr 1
    funext i
    simp only [Nat.zero_add]
    rfl
  · rw [Nat.sub_zero]
    congr 1
    funext i
    simp only [Nat.zero_add]
    rfl

/-- A fully fuelled `transmitLineDiffBY_HW` runs the whole B−Y segment. -/
lemma transmitLineDiffBY_eq (buf : ℕ → ℕ) (fuel oddRow evenRow : ℕ) (s : ScanState)
    (hf : imageWidth ≤ fuel) :
    transmitLineDiffBY_HW buf fuel oddRow evenRow s =
      { state := ⟨imageWidth, true, .SEG_BY, s.currentRow, oddRow, evenRow⟩,
        tones := segTonesBY buf oddRow evenRow,
        accesses := (List.range imageWidth).flatMap
          (fun x => [(x, oddRow), (x, evenRow)]) } := by
  unfold transmitLineDiffBY_HW
  rw [runSegmentLoop_complete buf .SEG_BY s.currentRow oddRow evenRow fuel 0
    imageWidth_pos (by omega)]
  congr 1
  · unfold segTonesBY
    rw [Nat.sub_zero]
    congr 1
    funext i
    simp only [Nat.zero_add]
    rfl
  · rw [Nat.sub_zero]
    congr 1
    funext i
    simp only [Nat.zero_add]
    rfl

/-- The global state a line pair leaves behind (fully determined by the pair
index). -/
def pairEndState (k : ℕ) : ScanState :=
  ⟨imageWidth, true, .SEG_Y, k * 2 + 1, k * 2, k * 2 + 1⟩

/-- The tone trace of line pair `k`: sync, porch, then the four scan
segments. -/
def pairTrace (buf : ℕ → ℕ) (k : ℕ) : List (ℕ × ℕ) :=
  (1200, syncPulseDuration) :: (1500, porchDuration) ::
    (pixelTrace (segTonesY buf (k * 2)) ++ pixelTrace (segTonesRY buf (k * 2) (k * 2 + 1)) ++
      pixelTrace (segTonesBY buf (k * 2) (k * 2 + 1)) ++ pixelTrace (segTonesY buf (k * 2 + 1)))

/-- The canvas accesses of line pair `k`. -/
def pairAccesses (k : ℕ) : List (ℕ × ℕ) :=
  (List.range imageWidth).flatMap (fun x => [(x, k * 2)]) ++
    (List.range imageWidth).flatMap (fun x => [(x, k * 2), (x, k * 2 + 1)]) ++
    (List.range imageWidth).flatMap (fun x => [(x, k * 2), (x, k * 2 + 1)]) ++
    (List.range imageWidth).flatMap (fun x => [(x, k * 2 + 1)])

/-- One line pair with enough fuel: output and end state are independent of
the incoming state, and the trace is sync, porch, then the four segments in
order, each complete. -/
lemma transmitPair_eq (buf : ℕ → ℕ) (fuel : ℕ) (s : ScanState) (k : ℕ)
    (hf : imageWidth ≤ fuel) :
    transmitPair buf fuel s k =
      { state := pairEndState k, trace := pairTrace buf k,
        accesses := pairAccesses k } := by
  simp only [transmitPair]
  rw [transmitLineY_eq buf fuel (k * 2) s hf]
  rw [transmitLineDiffRY_eq buf fuel (k * 2) (k * 2 + 1) _ hf]
  rw [transmitLineDiffBY_eq buf fuel (k * 2) (k * 2 + 1) _ hf]
  rw [transmitLineY_eq buf fuel (k * 2 + 1) _ hf]
  rfl

/-- Folding the pair loop over any list of pair indices appends the pairs'
traces and accesses in list order. -/
lemma foldPairs_spec (buf : ℕ → ℕ) (fuel : ℕ) (hf : imageWidth ≤ fuel) :
    ∀ (l : List ℕ) (acc : TxOut),
      (l.foldl (imageStep buf fuel) acc).trace
          = acc.trace ++ l.flatMap (pairTrace buf) ∧
      (l.foldl (imageStep buf fuel) acc).accesses
          = acc.accesses ++ l.flatMap pairAccesses := by
  intro l
  induction l with
  | nil => intro acc; simp
  | cons k t ih =>
    intro acc
    rw [List.foldl_cons]
    have hstep : imageStep buf fuel acc k =
        { state := pairEndState k, trace := acc.trace ++ pairTrace buf k,
          accesses := acc.accesses ++ pairAccesses k } := by
      simp only [imageStep]
      rw [transmitPair_eq buf fuel acc.state k hf]
    rw [hstep]
    obtain ⟨h1, h2⟩ := ih ⟨pairEndState k, acc.trace ++ pairTrace buf k, acc.accesses ++ pairAccesses k⟩
    rw [h1, h2]
    simp [List.append_assoc]

/-- The full image transmission: trace and accesses are the concatenation of
the `numPairs` pair outputs, in increasing pair order. -/
lemma transmitImage_spec (buf : ℕ → ℕ) (fuel : ℕ) (s : ScanState)
    (hf : imageWidth ≤ fuel) :
    (transmitPD120Image_HW buf fuel s).trace
        = (List.range numPairs).flatMap (pairTrace buf) ∧
    (transmitPD120Image_HW buf fuel s).accesses
        = (List.range numPairs).flatMap pairAccesses := by
  have h := foldPairs_spec buf fuel hf (List.range numPairs) ⟨s, [], []⟩
  constructor
  · rw [transmitPD120Image_HW, h.1, List.nil_append]
  · rw [transmitPD120Image_HW, h.2, List.nil_append]

end

/-! ## Arithmetic bounds -/

lemma scale_le_255 (v m : ℕ) (h : v ≤ m) (hm : 0 < m) : v * 255 / m ≤ 255 := by
  calc v * 255 / m ≤ m * 255 / m := Nat.div_le_div_right (mul_le_mul_right' h 255)
    _ = 255 := by rw [Nat.mul_div_cancel_left _ hm]

/-- The rescaled 8-bit channels never exceed 255. -/
lemma getCanvasPixel_le (buf : ℕ → ℕ) (x y : ℕ) :
    (getCanvasPixel buf x y).R ≤ 255 ∧ (getCanvasPixel buf x y).G ≤ 255 ∧
      (getCanvasPixel buf x y).B ≤ 255 := by
  unfold getCanvasPixel
  refine ⟨?_, ?_, ?_⟩
  · exact scale_le_255 _ 31 Nat.and_le_right (by norm_num)
  · exact scale_le_255 _ 63 Nat.and_le_right (by norm_num)
  · exact scale_le_255 _ 31 Nat.and_le_right (by norm_num)

lemma convertToSSTV_Y_nonneg (R G B : ℕ) : 0 ≤ (convertToSSTV R G B).Y := by
  unfold convertToSSTV
  have hR : (0 : ℚ) ≤ R := Nat.cast_nonneg R
  have hG : (0 : ℚ) ≤ G := Nat.cast_nonneg G
  have hB : (0 : ℚ) ≤ B := Nat.cast_nonneg B
  simp only []
  nlinarith

lemma convertToSSTV_Y_le (R G B : ℕ) (hR : R ≤ 255) (hG : G ≤ 255) (hB : B ≤ 255) :
    (convertToSSTV R G B).Y ≤ 255 := by
  unfold convertToSSTV
  have hRq : (R : ℚ) ≤ 255 := by exact_mod_cast hR
  have hGq : (G : ℚ) ≤ 255 := by exact_mod_cast hG
  have hBq : (B : ℚ) ≤ 255 := by exact_mod_cast hB
  simp only []
  nlinarith

/-- `|R−Y| ≤ 0.713 · 0.701 · 255 = 127.452315` for 8-bit inputs. -/
lemma convertToSSTV_RY_abs (R G B : ℕ) (hR : R ≤ 255) (hG : G ≤ 255) (hB : B ≤ 255) :
    |(convertToSSTV R G B).RY| ≤ (127452315 : ℚ) / 1000000 := by
  unfold convertToSSTV
  have hRq : (R : ℚ) ≤ 255 := by exact_mod_cast hR
  have hGq : (G : ℚ) ≤ 255 := by exact_mod_cast hG
  have hBq : (B : ℚ) ≤ 255 := by exact_mod_cast hB
  have hR0 : (0 : ℚ) ≤ R := Nat.cast_nonneg R
  have hG0 : (0 : ℚ) ≤ G := Nat.cast_nonneg G
  have hB0 : (0 : ℚ) ≤ B := Nat.cast_nonneg B
  simp only []
  rw [abs_le]
  constructor <;> nlinarith

/-- `|B−Y| ≤ 0.564 · 0.886 · 255 = 127.42452 ≤ 127.452315` for 8-bit inputs. -/
lemma convertToSSTV_BY_abs (R G B : ℕ) (hR : R ≤ 255) (hG : G ≤ 255) (hB : B ≤ 255) :
    |(convertToSSTV R G B).BY| ≤ (127452315 : ℚ) / 1000000 := by
  unfold convertToSSTV
  have hRq : (R : ℚ) ≤ 255 := by exact_mod_cast hR
  have hGq : (G : ℚ) ≤ 255 := by exact_mod_cast hG
  have hBq : (B : ℚ) ≤ 255 := by exact_mod_cast hB
  have hR0 : (0 : ℚ) ≤ R := Nat.cast_nonneg R
  have hG0 : (0 : ℚ) ≤ G := Nat.cast_nonneg G
  have hB0 : (0 : ℚ) ≤ B := Nat.cast_nonneg B
  simp only []
  rw [abs_le]
  constructor <;> nlinarith

lemma mapYToFrequency_lower (Y : ℚ) : 1500 ≤ mapYToFrequency Y :=
  Nat.le_add_right 1500 _

lemma mapYToFrequency_le (Y : ℚ) (h : Y ≤ 255) : mapYToFrequency Y ≤ 2300 := by
  unfold mapYToFrequency
  have harg : Y / 255 * 800 ≤ 800 := by linarith
  have h2 : ⌊Y / 255 * 800⌋ ≤ 800 := by
    calc ⌊Y / 255 * 800⌋ ≤ ⌊(800 : ℚ)⌋ := Int.floor_le_floor harg
      _ = 800 := by norm_num
  have h3 : (⌊Y / 255 * 800⌋).toNat ≤ (800 : ℤ).toNat := Int.toNat_le_toNat h2
  omega

lemma mapDiffToFrequency_lower (d : ℚ) : 1500 ≤ mapDiffToFrequency d :=
  Nat.le_add_right 1500 _

lemma mapDiffToFrequency_le (d : ℚ) (h : d ≤ (127452315 : ℚ) / 1000000) :
    mapDiffToFrequency d ≤ 2301 := by
  unfold mapDiffToFrequency
  have harg : (d + 128) / 255 * 800 < 802 := by linarith
  have h2 : ⌊(d + 128) / 255 * 800⌋ < 802 := by
    apply Int.floor_lt.mpr
    push_cast
    linarith
  have h3 : (⌊(d + 128) / 255 * 800⌋).toNat ≤ (801 : ℤ).toNat :=
    Int.toNat_le_toNat (by omega)
  omega

/-- The averaged difference of two in-range channels stays within the
`127.452315` bound. -/
lemma avg_abs_le (a b : ℚ) (ha : |a| ≤ (127452315 : ℚ) / 1000000)
    (hb : |b| ≤ (127452315 : ℚ) / 1000000) :
    |(a + b) / 2| ≤ (127452315 : ℚ) / 1000000 := by
  rw [abs_le] at *
  constructor <;> nlinarith [ha.1, ha.2, hb.1, hb.2]

/-- Every tone the timer callback computes lies in `[1500, 2301]`, and
luminance tones lie in `[1500, 2300]`. -/
lemma tickFreq_bounds (buf : ℕ → ℕ) (s : ScanState) :
    1500 ≤ tickFreq buf s ∧ tickFreq buf s ≤ 2301 ∧
      (s.currentSegment = SegmentType.SEG_Y → tickFreq buf s ≤ 2300) := by
  obtain ⟨c, b, seg, r, ro, re⟩ := s
  cases seg with
  | SEG_Y =>
    have hp := getCanvasPixel_le buf c r
    have h1 := convertToSSTV_Y_le _ _ _ hp.1 hp.2.1 hp.2.2
    have h2 := mapYToFrequency_le _ h1
    exact ⟨mapYToFrequency_lower _, by simpa [tickFreq] using le_trans (by simpa [tickFreq] using h2) (by norm_num), fun _ => by simpa [tickFreq] using h2⟩
  | SEG_RY =>
    have hp1 := getCanvasPixel_le buf c ro
    have hp2 := getCanvasPixel_le buf c re
    have ha := convertToSSTV_RY_abs _ _ _ hp1.1 hp1.2.1 hp1.2.2
    have hb := convertToSSTV_RY_abs _ _ _ hp2.1 hp2.2.1 hp2.2.2
    have havg := avg_abs_le _ _ ha hb
    have h2 := mapDiffToFrequency_le _ ((abs_le.mp havg).2)
    exact ⟨mapDiffToFrequency_lower _, by simpa [tickFreq] using h2, fun h => nomatch h⟩
  | SEG_BY =>
    have hp1 := getCanvasPixel_le buf c ro
    have hp2 := getCanvasPixel_le buf c re
    have ha := convertToSSTV_BY_abs _ _ _ hp1.1 hp1.2.1 hp1.2.2
    have hb := convertToSSTV_BY_abs _ _ _ hp2.1 hp2.2.1 hp2.2.2
    have havg := avg_abs_le _ _ ha hb
    have h2 := mapDiffToFrequency_le _ ((abs_le.mp havg).2)
    exact ⟨mapDiffToFrequency_lower _, by simpa [tickFreq] using h2, fun h => nomatch h⟩

/-- The second component of the callback result is always the computed tone,
whichever branch the counter test takes. -/
lemma pixelTimerCallback_snd (buf : ℕ → ℕ) (s : ScanState) :
    (pixelTimerCallback buf s).2 = tickFreq buf s := by
  by_cases h : imageWidth ≤ s.pixelCounter + 1 <;> simp [pixelTimerCallback, h]

/-- A pure-red canvas decodes to RGB8 (255, 0, 0) everywhere. -/
lemma bufRed_pixel (x y : ℕ) : getCanvasPixel bufRed x y = ⟨255, 0, 0⟩ := by
  simp only [getCanvasPixel, bufRed]
  decide

/-- An all-bits-set canvas decodes to RGB8 (255, 255, 255) everywhere. -/
lemma bufWhite_pixel (x y : ℕ) : getCanvasPixel bufWhite x y = ⟨255, 255, 255⟩ := by
  simp only [getCanvasPixel, bufWhite]
  decide

/-- Truncating `(n / 255) * 800` for a natural `n` is natural division. -/
lemma floorScale_eq (n : ℕ) : (⌊(n : ℚ) / 255 * 800⌋).toNat = n * 800 / 255 := by
  have h1 : (n : ℚ) / 255 * 800 = ((n * 800 : ℕ) : ℚ) / ((255 : ℕ) : ℚ) := by
    push_cast
    ring
  rw [h1, Int.floor_toNat, Nat.floor_div_nat, Nat.floor_natCast]

/-- Every access of a line pair is at a column below `imageWidth` and one of
the pair's two rows. -/
lemma pairAccesses_mem (k : ℕ) (xy : ℕ × ℕ) (h : xy ∈ pairAccesses k) :
    xy.1 < imageWidth ∧ (xy.2 = k * 2 ∨ xy.2 = k * 2 + 1) := by
  simp only [pairAccesses, List.mem_append, List.mem_flatMap, List.mem_range,
    List.mem_cons, List.mem_singleton, List.not_mem_nil, or_false] at h
  rcases h with ((⟨x, hx, rfl⟩ | ⟨x, hx, rfl | rfl⟩) | ⟨x, hx, rfl | rfl⟩) | ⟨x, hx, rfl⟩ <;>
    simp [hx]

/-- A luminance segment run with fewer than `imageWidth` ticks: unfinished,
one tone per tick. -/
lemma transmitLineY_partial_spec (buf : ℕ → ℕ) (k row : ℕ) (s : ScanState)
    (hk : k < imageWidth) :
    (transmitLineY_HW buf k row s).state.rowFinished = false ∧
    (transmitLineY_HW buf k row s).tones.length = k := by
  rw [transmitLineY_HW,
    runSegmentLoop_partial buf .SEG_Y row s.currentRowOdd s.currentRowEven k 0 (by omega)]
  exact ⟨rfl, by simp⟩

/-- An R−Y segment run with fewer than `imageWidth` ticks. -/
lemma transmitLineDiffRY_partial_spec (buf : ℕ → ℕ) (k oddRow evenRow : ℕ)
    (s : ScanState) (hk : k < imageWidth) :
    (transmitLineDiffRY_HW buf k oddRow evenRow s).state.rowFinished = false ∧
    (transmitLineDiffRY_HW buf k oddRow evenRow s).tones.length = k := by
  rw [transmitLineDiffRY_HW,
    runSegmentLoop_partial buf .SEG_RY s.currentRow oddRow evenRow k 0 (by omega)]
  exact ⟨rfl, by simp⟩

/-- A B−Y segment run with fewer than `imageWidth` ticks. -/
lemma transmitLineDiffBY_partial_spec (buf : ℕ → ℕ) (k oddRow evenRow : ℕ)
    (s : ScanState) (hk : k < imageWidth) :
    (transmitLineDiffBY_HW buf k oddRow evenRow s).state.rowFinished = false ∧
    (transmitLineDiffBY_HW buf k oddRow evenRow s).tones.length = k := by
  rw [transmitLineDiffBY_HW,
    runSegmentLoop_partial buf .SEG_BY s.currentRow oddRow evenRow k 0 (by omega)]
  exact ⟨rfl, by simp⟩

/-! ## Claim theorems -/

/-- C1: a full PD120 transmission runs exactly `496 / 2 = 248` line pairs in
increasing pair order; each pair `k` (rows `2k`, `2k+1`) emits, in strict
order, a 1200 Hz sync tone for 20000 µs, a 1500 Hz porch tone for 2080 µs,
then the four scan segments Y(odd), R−Y, B−Y, Y(even), each complete
(640 tones) before the next begins. -/
theorem C1_line_pair_sequence (buf : ℕ → ℕ) (fuel : ℕ) (s : ScanState)
    (hf : imageWidth ≤ fuel) :
    numPairs = 248 ∧
    (transmitPD120Image_HW buf fuel s).trace =
      (List.range 248).flatMap (fun k =>
        (1200, 20000) :: (1500, 2080) ::
          (pixelTrace (segTonesY buf (2 * k)) ++
            pixelTrace (segTonesRY buf (2 * k) (2 * k + 1)) ++
            pixelTrace (segTonesBY buf (2 * k) (2 * k + 1)) ++
            pixelTrace (segTonesY buf (2 * k + 1)))) ∧
    (∀ row, (segTonesY buf row).length = imageWidth) ∧
    (∀ oddRow evenRow, (segTonesRY buf oddRow evenRow).length = imageWidth ∧
      (segTonesBY buf oddRow evenRow).length = imageWidth) := by
  refine ⟨rfl, ?_, ?_, ?_⟩
  · rw [(transmitImage_spec buf fuel s hf).1]
    rw [show numPairs = 248 from rfl]
    congr 1
    funext k
    rw [pairTrace, Nat.mul_comm k 2,
      show syncPulseDuration = 20000 from rfl, show porchDuration = 2080 from rfl]
  · intro row
    simp [segTonesY]
  · intro oddRow evenRow
    constructor
    · simp [segTonesRY]
    · simp [segTonesBY]

/-- C1 witness at a concrete surface and fuel. -/
theorem C1_witness : imageWidth ≤ 640 ∧ numPairs = 248 :=
  ⟨by decide, (C1_line_pair_sequence buf0 640 initState (by decide)).1⟩

/-- C2 counterexample: the claim's pulse list (parity pulse of 1300 µs) is
not the code's pulse list; the code's 12th pulse (index 11, the parity
pulse) lasts 30000 µs at 1300 Hz. -/
theorem C2_counterexample :
    transmitCalibrationHeader ≠ claimHeaderPulses ∧
    transmitCalibrationHeader[11]? = some (1300, 30000) ∧
    claimHeaderPulses[11]? = some (1300, 1300) := by decide

/-- C2 (amended): the calibration header always emits exactly these 13
pulses — two leaders with a break, sync, the seven VIS bits of code 95
(1,1,1,1,1,0,1), an even-parity pulse of **30000 µs** at 1300 Hz, and a
stop pulse — independent of any pixel data (it reads none). -/
theorem C2_header_pulses :
    transmitCalibrationHeader =
      [(1900, 300000), (1200, 10000), (1900, 300000), (1200, 30000),
       (1100, 30000), (1100, 30000), (1100, 30000), (1100, 30000), (1100, 30000),
       (1300, 30000), (1100, 30000), (1300, 30000), (1200, 30000)] ∧
    transmitCalibrationHeader.length = 13 := by decide

/-- C3: every begin-segment call with enough fuel runs the callback exactly
`imageWidth = 640` times, one tone per invocation, finishing exactly then;
with fewer than 640 ticks the segment is never marked finished. -/
theorem C3_segment_tick_count (buf : ℕ → ℕ) (fuel row oddRow evenRow : ℕ)
    (s : ScanState) (hf : imageWidth ≤ fuel) :
    ((transmitLineY_HW buf fuel row s).tones.length = imageWidth ∧
      (transmitLineY_HW buf fuel row s).state.rowFinished = true) ∧
    ((transmitLineDiffRY_HW buf fuel oddRow evenRow s).tones.length = imageWidth ∧
      (transmitLineDiffRY_HW buf fuel oddRow evenRow s).state.rowFinished = true) ∧
    ((transmitLineDiffBY_HW buf fuel oddRow evenRow s).tones.length = imageWidth ∧
      (transmitLineDiffBY_HW buf fuel oddRow evenRow s).state.rowFinished = true) ∧
    (∀ k, k < imageWidth →
      (transmitLineY_HW buf k row s).state.rowFinished = false ∧
      (transmitLineY_HW buf k row s).tones.length = k ∧
      (transmitLineDiffRY_HW buf k oddRow evenRow s).state.rowFinished = false ∧
      (transmitLineDiffRY_HW buf k oddRow evenRow s).tones.length = k ∧
      (transmitLineDiffBY_HW buf k oddRow evenRow s).state.rowFinished = false ∧
      (transmitLineDiffBY_HW buf k oddRow evenRow s).tones.length = k) := by
  refine ⟨?_, ?_, ?_, ?_⟩
  · rw [transmitLineY_eq buf fuel row s hf]
    exact ⟨by simp [segTonesY], rfl⟩
  · rw [transmitLineDiffRY_eq buf fuel oddRow evenRow s hf]
    exact ⟨by simp [segTonesRY], rfl⟩
  · rw [transmitLineDiffBY_eq buf fuel oddRow evenRow s hf]
    exact ⟨by simp [segTonesBY], rfl⟩
  · intro k hk
    obtain ⟨hy1, hy2⟩ := transmitLineY_partial_spec buf k row s hk
    obtain ⟨hr1, hr2⟩ := transmitLineDiffRY_partial_spec buf k oddRow evenRow s hk
    obtain ⟨hb1, hb2⟩ := transmitLineDiffBY_partial_spec buf k oddRow evenRow s hk
    exact ⟨hy1, hy2, hr1, hr2, hb1, hb2⟩

/-- C3 witness at a concrete surface, rows and fuel. -/
theorem C3_witness : imageWidth ≤ 640 ∧
    (transmitLineY_HW buf0 640 0 initState).tones.length = imageWidth :=
  ⟨by decide, (C3_segment_tick_count buf0 640 0 0 1 initState (by decide)).1.1⟩

/-- C4 counterexample: `mapYToFrequency` truncates rather than rounds; at
Y = 4 the code yields 1512 while the claim's rounding formula yields 1513. -/
theorem C4_counterexample :
    mapYToFrequency 4 = 1512 ∧ (1500 + round ((4 : ℚ) / 255 * 800) : ℤ) = 1513 ∧
    (mapYToFrequency 4 : ℤ) ≠ 1500 + round ((4 : ℚ) / 255 * 800) := by
  have h1 : mapYToFrequency 4 = 1512 := by
    rw [mapYToFrequency, show ⌊(4 : ℚ) / 255 * 800⌋ = 12 from by norm_num]
    decide
  have h2 : (1500 + round ((4 : ℚ) / 255 * 800) : ℤ) = 1513 := by
    rw [round_eq, show ⌊(4 : ℚ) / 255 * 800 + 1 / 2⌋ = 13 from by norm_num]
    decide
  refine ⟨h1, h2, ?_⟩
  rw [h1, h2]
  decide

/-- C4 (amended): the frequency maps truncate: for natural Y,
`mapYToFrequency Y = 1500 + Y·800/255` (natural floor division), and for an
integer D ≥ −128, `mapDiffToFrequency D = 1500 + (D+128)·800/255`. -/
theorem C4_truncation_formula (Y : ℕ) (D : ℤ) (hD : -128 ≤ D) :
    mapYToFrequency (Y : ℚ) = 1500 + Y * 800 / 255 ∧
    mapDiffToFrequency (D : ℚ) = 1500 + (D + 128).toNat * 800 / 255 := by
  constructor
  · rw [mapYToFrequency, floorScale_eq]
  · rw [mapDiffToFrequency]
    have h0 : (0 : ℤ) ≤ D + 128 := by omega
    have h1 : ((D + 128).toNat : ℤ) = D + 128 := Int.toNat_of_nonneg h0
    have hcast : (((D + 128).toNat : ℕ) : ℚ) = (D : ℚ) + 128 := by
      calc (((D + 128).toNat : ℕ) : ℚ) = (((D + 128).toNat : ℤ) : ℚ) := by push_cast; ring
        _ = ((D + 128 : ℤ) : ℚ) := by rw [h1]
        _ = (D : ℚ) + 128 := by push_cast; ring
    rw [← hcast, floorScale_eq]

/-- C4 witness at concrete inputs. -/
theorem C4_witness : (-128 : ℤ) ≤ -5 ∧
    (mapYToFrequency ((10 : ℕ) : ℚ) = 1500 + 10 * 800 / 255 ∧
     mapDiffToFrequency (((-5 : ℤ) : ℚ)) = 1500 + ((-5 : ℤ) + 128).toNat * 800 / 255) :=
  ⟨by decide, C4_truncation_formula 10 (-5) (by decide)⟩

/-- C5 counterexample: on a pure-red surface the very first R−Y tick writes
2301 Hz, outside the claimed range [1500, 2300]. -/
theorem C5_counterexample :
    (pixelTimerCallback bufRed ⟨0, false, .SEG_RY, 0, 0, 1⟩).2 = 2301 ∧
    ¬ ((pixelTimerCallback bufRed ⟨0, false, .SEG_RY, 0, 0, 1⟩).2 ≤ 2300) := by
  have hval : (pixelTimerCallback bufRed ⟨0, false, .SEG_RY, 0, 0, 1⟩).2 = 2301 := by
    rw [pixelTimerCallback_snd]
    have h1 : tickFreq bufRed ⟨0, false, .SEG_RY, 0, 0, 1⟩ =
        mapDiffToFrequency
          (((convertToSSTV 255 0 0).RY + (convertToSSTV 255 0 0).RY) / 2) := by
      simp [tickFreq, bufRed_pixel]
    rw [h1, show (convertToSSTV 255 0 0).RY = 25490463 / 200000 from by
      norm_num [convertToSSTV]]
    rw [show ((25490463 : ℚ) / 200000 + 25490463 / 200000) / 2 = 25490463 / 200000 from by
      norm_num]
    rw [mapDiffToFrequency,
      show ⌊((25490463 : ℚ) / 200000 + 128) / 255 * 800⌋ = 801 from by norm_num]
    decide
  exact ⟨hval, by rw [hval]; norm_num⟩

/-- C5 (amended): every frequency the timer callback passes to
`ledcWriteTone` lies in [1500, 2301] for any surface and any segment state;
luminance ticks lie in [1500, 2300].  (The difference segments can reach
2301 Hz for saturated red/blue pixels, one above the claimed bound.) -/
theorem C5_tick_frequency_range (buf : ℕ → ℕ) (s : ScanState) :
    1500 ≤ (pixelTimerCallback buf s).2 ∧ (pixelTimerCallback buf s).2 ≤ 2301 ∧
      (s.currentSegment = SegmentType.SEG_Y → (pixelTimerCallback buf s).2 ≤ 2300) := by
  rw [pixelTimerCallback_snd]
  exact tickFreq_bounds buf s

/-- C5 witness: the amended bounds at a concrete surface and state. -/
theorem C5_witness :
    1500 ≤ (pixelTimerCallback buf0 initState).2 ∧
    (pixelTimerCallback buf0 initState).2 ≤ 2300 :=
  ⟨(C5_tick_frequency_range buf0 initState).1,
   (C5_tick_frequency_range buf0 initState).2.2 rfl⟩

/-- C6: map endpoints — `mapYToFrequency` sends 0 ↦ 1500 and 255 ↦ 2300,
`mapDiffToFrequency` sends −128 ↦ 1500 and 127 ↦ 2300 — and both maps are
monotone non-decreasing (on all of ℚ, hence on the claimed ranges). -/
theorem C6_endpoints_monotone :
    mapYToFrequency 0 = 1500 ∧ mapYToFrequency 255 = 2300 ∧
    mapDiffToFrequency (-128) = 1500 ∧ mapDiffToFrequency 127 = 2300 ∧
    (∀ a b : ℚ, a ≤ b → mapYToFrequency a ≤ mapYToFrequency b) ∧
    (∀ a b : ℚ, a ≤ b → mapDiffToFrequency a ≤ mapDiffToFrequency b) := by
  refine ⟨?_, ?_, ?_, ?_, ?_, ?_⟩
  · rw [mapYToFrequency, show ⌊(0 : ℚ) / 255 * 800⌋ = 0 from by norm_num]
    decide
  · rw [mapYToFrequency, show ⌊(255 : ℚ) / 255 * 800⌋ = 800 from by norm_num]
    decide
  · rw [mapDiffToFrequency, show ⌊((-128 : ℚ) + 128) / 255 * 800⌋ = 0 from by norm_num]
    decide
  · rw [mapDiffToFrequency, show ⌊((127 : ℚ) + 128) / 255 * 800⌋ = 800 from by norm_num]
    decide
  · intro a b hab
    unfold mapYToFrequency
    have h : a / 255 * 800 ≤ b / 255 * 800 := by linarith
    exact Nat.add_le_add_left (Int.toNat_le_toNat (Int.floor_le_floor h)) 1500
  · intro a b hab
    unfold mapDiffToFrequency
    have h : (a + 128) / 255 * 800 ≤ (b + 128) / 255 * 800 := by linarith
    exact Nat.add_le_add_left (Int.toNat_le_toNat (Int.floor_le_floor h)) 1500

/-- C6 witness: monotonicity applied at concrete points. -/
theorem C6_witness :
    ((0 : ℚ) ≤ 100 ∧ mapYToFrequency 0 ≤ mapYToFrequency 100) ∧
    ((-100 : ℚ) ≤ 50 ∧ mapDiffToFrequency (-100) ≤ mapDiffToFrequency 50) :=
  ⟨⟨by norm_num, C6_endpoints_monotone.2.2.2.2.1 0 100 (by norm_num)⟩,
   ⟨by norm_num, C6_endpoints_monotone.2.2.2.2.2 (-100) 50 (by norm_num)⟩⟩

/-- C7: on an all-white surface (every packed pixel `0xFFFF`), every
luminance tick writes 2300 Hz and every difference tick writes 1901 Hz
(= 1500 + ⌊128/255·800⌋, since R−Y = B−Y = 0 for white). -/
theorem C7_white_surface_tones (s : ScanState) :
    (s.currentSegment = SegmentType.SEG_Y →
      (pixelTimerCallback bufWhite s).2 = 2300) ∧
    (s.currentSegment = SegmentType.SEG_RY →
      (pixelTimerCallback bufWhite s).2 = 1901) ∧
    (s.currentSegment = SegmentType.SEG_BY →
      (pixelTimerCallback bufWhite s).2 = 1901) := by
  have hY : (convertToSSTV 255 255 255).Y = 255 := by norm_num [convertToSSTV]
  have hRY : (convertToSSTV 255 255 255).RY = 0 := by norm_num [convertToSSTV]
  have hBY : (convertToSSTV 255 255 255).BY = 0 := by norm_num [convertToSSTV]
  obtain ⟨c, b, seg, r, ro, re⟩ := s
  rw [pixelTimerCallback_snd]
  refine ⟨fun h => ?_, fun h => ?_, fun h => ?_⟩ <;> simp only [] at h <;> subst h
  · have h1 : tickFreq bufWhite ⟨c, b, .SEG_Y, r, ro, re⟩ =
        mapYToFrequency (convertToSSTV 255 255 255).Y := by
      simp [tickFreq, bufWhite_pixel]
    rw [h1, hY, mapYToFrequency, show ⌊(255 : ℚ) / 255 * 800⌋ = 800 from by norm_num]
    decide
  · have h1 : tickFreq bufWhite ⟨c, b, .SEG_RY, r, ro, re⟩ =
        mapDiffToFrequency
          (((convertToSSTV 255 255 255).RY + (convertToSSTV 255 255 255).RY) / 2) := by
      simp [tickFreq, bufWhite_pixel]
    rw [h1, hRY, show ((0 : ℚ) + 0) / 2 = 0 from by norm_num, mapDiffToFrequency,
      show ⌊((0 : ℚ) + 128) / 255 * 800⌋ = 401 from by norm_num]
    decide
  · have h1 : tickFreq bufWhite ⟨c, b, .SEG_BY, r, ro, re⟩ =
        mapDiffToFrequency
          (((convertToSSTV 255 255 255).BY + (convertToSSTV 255 255 255).BY) / 2) := by
      simp [tickFreq, bufWhite_pixel]
    rw [h1, hBY, show ((0 : ℚ) + 0) / 2 = 0 from by norm_num, mapDiffToFrequency,
      show ⌊((0 : ℚ) + 128) / 255 * 800⌋ = 401 from by norm_num]
    decide

/-- C7 witness at concrete states of each segment kind. -/
theorem C7_witness :
    (pixelTimerCallback bufWhite ⟨0, false, .SEG_Y, 0, 0, 0⟩).2 = 2300 ∧
    (pixelTimerCallback bufWhite ⟨0, false, .SEG_RY, 0, 0, 1⟩).2 = 1901 ∧
    (pixelTimerCallback bufWhite ⟨0, false, .SEG_BY, 0, 0, 1⟩).2 = 1901 :=
  ⟨(C7_white_surface_tones ⟨0, false, .SEG_Y, 0, 0, 0⟩).1 rfl,
   (C7_white_surface_tones ⟨0, false, .SEG_RY, 0, 0, 1⟩).2.1 rfl,
   (C7_white_surface_tones ⟨0, false, .SEG_BY, 0, 0, 1⟩).2.2 rfl⟩

/-- C8: for gray triples R = G = B = c the conversion gives Y = c and zero
differences (the coefficients sum to one exactly), and luminance never
exceeds the largest channel. -/
theorem C8_gray_identity_luma_bound :
    (∀ c : ℕ, (convertToSSTV c c c).Y = c ∧ (convertToSSTV c c c).RY = 0 ∧
      (convertToSSTV c c c).BY = 0) ∧
    (∀ R G B : ℕ, (convertToSSTV R G B).Y ≤ ((max R (max G B) : ℕ) : ℚ)) := by
  constructor
  · intro c
    refine ⟨?_, ?_, ?_⟩ <;> simp only [convertToSSTV] <;> ring_nf
  · intro R G B
    have hR : (R : ℚ) ≤ ((max R (max G B) : ℕ) : ℚ) := by
      exact_mod_cast le_max_left R (max G B)
    have hG : (G : ℚ) ≤ ((max R (max G B) : ℕ) : ℚ) := by
      exact_mod_cast le_trans (le_max_left G B) (le_max_right R (max G B))
    have hB : (B : ℚ) ≤ ((max R (max G B) : ℕ) : ℚ) := by
      exact_mod_cast le_trans (le_max_right G B) (le_max_right R (max G B))
    simp only [convertToSSTV]
    nlinarith

/-- C9: every canvas access of a full transmission is in bounds: column
below 640, row below 496, and flat buffer index `y·640 + x` below
`640·496`. -/
theorem C9_access_bounds (buf : ℕ → ℕ) (fuel : ℕ) (s : ScanState)
    (hf : imageWidth ≤ fuel) :
    ∀ xy ∈ (transmitPD120Image_HW buf fuel s).accesses,
      xy.1 < imageWidth ∧ xy.2 < imageHeight ∧
        xy.2 * imageWidth + xy.1 < imageWidth * imageHeight := by
  intro xy hxy
  rw [(transmitImage_spec buf fuel s hf).2] at hxy
  rw [List.mem_flatMap] at hxy
  obtain ⟨k, hk, hmem⟩ := hxy
  rw [List.mem_range] at hk
  obtain ⟨h1, h2⟩ := pairAccesses_mem k xy hmem
  have hk2 : k < 248 := by
    rw [show numPairs = 248 from rfl] at hk
    exact hk
  rw [show imageWidth = 640 from rfl] at h1 ⊢
  rw [show imageHeight = 496 from rfl]
  rcases h2 with h2 | h2 <;> rw [h2] <;> omega

/-- C9 witness: concrete access (0, 0) of a concrete run is in bounds. -/
theorem C9_witness :
    imageWidth ≤ 640 ∧
    ((0, 0) ∈ (transmitPD120Image_HW buf0 640 initState).accesses ∧
      (0 : ℕ) < imageWidth ∧ (0 : ℕ) < imageHeight ∧
        0 * imageWidth + 0 < imageWidth * imageHeight) := by
  have hmem : ((0, 0) : ℕ × ℕ) ∈ (transmitPD120Image_HW buf0 640 initState).accesses := by
    rw [(transmitImage_spec buf0 640 initState (by decide)).2]
    rw [List.mem_flatMap]
    refine ⟨0, by rw [List.mem_range]; decide, ?_⟩
    rw [pairAccesses]
    simp only [List.mem_append, List.mem_flatMap, List.mem_range, List.mem_singleton]
    exact Or.inl (Or.inl (Or.inl ⟨0, imageWidth_pos, rfl⟩))
  have hb := C9_access_bounds buf0 640 initState (by decide) (0, 0) hmem
  exact ⟨by decide, hmem, hb.1, hb.2.1, hb.2.2⟩

/-- C10: for any two pixels the callback can read, the averaged R−Y and B−Y
values lie strictly inside (−128, 128), so the argument of the
float-to-unsigned cast in `mapDiffToFrequency` is nonnegative. -/
theorem C10_diff_average_range (buf : ℕ → ℕ) (x1 y1 x2 y2 : ℕ) :
    (-(128 : ℚ) <
        ((convertToSSTV (getCanvasPixel buf x1 y1).R (getCanvasPixel buf x1 y1).G
            (getCanvasPixel buf x1 y1).B).RY +
          (convertToSSTV (getCanvasPixel buf x2 y2).R (getCanvasPixel buf x2 y2).G
            (getCanvasPixel buf x2 y2).B).RY) / 2 ∧
      ((convertToSSTV (getCanvasPixel buf x1 y1).R (getCanvasPixel buf x1 y1).G
            (getCanvasPixel buf x1 y1).B).RY +
          (convertToSSTV (getCanvasPixel buf x2 y2).R (getCanvasPixel buf x2 y2).G
            (getCanvasPixel buf x2 y2).B).RY) / 2 < 128) ∧
    (-(128 : ℚ) <
        ((convertToSSTV (getCanvasPixel buf x1 y1).R (getCanvasPixel buf x1 y1).G
            (getCanvasPixel buf x1 y1).B).BY +
          (convertToSSTV (getCanvasPixel buf x2 y2).R (getCanvasPixel buf x2 y2).G
            (getCanvasPixel buf x2 y2).B).BY) / 2 ∧
      ((convertToSSTV (getCanvasPixel buf x1 y1).R (getCanvasPixel buf x1 y1).G
            (getCanvasPixel buf x1 y1).B).BY +
          (convertToSSTV (getCanvasPixel buf x2 y2).R (getCanvasPixel buf x2 y2).G
            (getCanvasPixel buf x2 y2).B).BY) / 2 < 128) ∧
    0 ≤ (((convertToSSTV (getCanvasPixel buf x1 y1).R (getCanvasPixel buf x1 y1).G
            (getCanvasPixel buf x1 y1).B).RY +
          (convertToSSTV (getCanvasPixel buf x2 y2).R (getCanvasPixel buf x2 y2).G
            (getCanvasPixel buf x2 y2).B).RY) / 2 + 128) / 255 * 800 ∧
    0 ≤ (((convertToSSTV (getCanvasPixel buf x1 y1).R (getCanvasPixel buf x1 y1).G
            (getCanvasPixel buf x1 y1).B).BY +
          (convertToSSTV (getCanvasPixel buf x2 y2).R (getCanvasPixel buf x2 y2).G
            (getCanvasPixel buf x2 y2).B).BY) / 2 + 128) / 255 * 800 := by
  have hp1 := getCanvasPixel_le buf x1 y1
  have hp2 := getCanvasPixel_le buf x2 y2
  have haR := convertToSSTV_RY_abs _ _ _ hp1.1 hp1.2.1 hp1.2.2
  have hbR := convertToSSTV_RY_abs _ _ _ hp2.1 hp2.2.1 hp2.2.2
  have haB := convertToSSTV_BY_abs _ _ _ hp1.1 hp1.2.1 hp1.2.2
  have hbB := convertToSSTV_BY_abs _ _ _ hp2.1 hp2.2.1 hp2.2.2
  have hR := abs_le.mp (avg_abs_le _ _ haR hbR)
  have hB := abs_le.mp (avg_abs_le _ _ haB hbB)
  refine ⟨⟨by linarith [hR.1], by linarith [hR.2]⟩,
    ⟨by linarith [hB.1], by linarith [hB.2]⟩, ?_, ?_⟩
  · have h0 : (0 : ℚ) ≤ ((convertToSSTV (getCanvasPixel buf x1 y1).R
        (getCanvasPixel buf x1 y1).G (getCanvasPixel buf x1 y1).B).RY +
        (convertToSSTV (getCanvasPixel buf x2 y2).R (getCanvasPixel buf x2 y2).G
          (getCanvasPixel buf x2 y2).B).RY) / 2 + 128 := by linarith [hR.1]
    positivity
  · have h0 : (0 : ℚ) ≤ ((convertToSSTV (getCanvasPixel buf x1 y1).R
        (getCanvasPixel buf x1 y1).G (getCanvasPixel buf x1 y1).B).BY +
        (convertToSSTV (getCanvasPixel buf x2 y2).R (getCanvasPixel buf x2 y2).G
          (getCanvasPixel buf x2 y2).B).BY) / 2 + 128 := by linarith [hB.1]
    positivity

end SSTV
